import Mathlib

/-!
Shallow embedding of the tahoo incremental sync and time-series query engine
(src/tahoo/db.py, src/tahoo/db/{store,fetch,queries}.py).

Dates: the archive stores ISO `YYYY-MM-DD` strings and Python `datetime`
arithmetic is uniform in days, so a calendar date is embedded as its
Rata Die day number (day 1 = 0001-01-01, a Monday, proleptic Gregorian).
Lexicographic comparison of ISO strings and SQLite `date()` comparison
both coincide with the numeric order of day numbers.
`strftime("%A")` is embedded as `day % 7` (0 = Sunday, …, 6 = Saturday).
-/

section RatKernelCompute

attribute [local semireducible] Rat.mul Rat.add Rat.sub Rat.inv Rat.ofScientific

namespace Tahoo

/-- Gregorian leap-year test. -/
def isLeap (y : Nat) : Bool :=
  (y % 4 == 0 && y % 100 != 0) || y % 400 == 0

/-- Rata Die day number of the Gregorian date y-m-d (day 1 = 0001-01-01). -/
def rataDie (y m d : Nat) : Nat :=
  365 * (y - 1) + (y - 1) / 4 - (y - 1) / 100 + (y - 1) / 400
    + ((367 * m - 362) / 12 - (if m ≤ 2 then 0 else if isLeap y then 1 else 2))
    + d

/-- Civil (year, month, day) of a Rata Die day number (valid for positive y). -/
def civilFromDays (rd : Nat) : Nat × Nat × Nat :=
  let z := rd + 305
  let era := z / 146097
  let doe := z % 146097
  let yoe := (doe - doe / 1460 + doe / 36524 - doe / 146096) / 365
  let y0 := yoe + era * 400
  let doy := doe - (365 * yoe + yoe / 4 - yoe / 100)
  let mp := (5 * doy + 2) / 153
  let d := doy - (153 * mp + 2) / 5 + 1
  let m := if mp < 10 then mp + 3 else mp - 9
  (if m ≤ 2 then y0 + 1 else y0, m, d)

/-- Index of the calendar month of a day number, used as the pandas 'M' resample
bin label: consecutive months get consecutive indices. -/
def monthIndex (rd : Nat) : Nat :=
  let c := civilFromDays rd
  12 * c.1 + c.2.1

/-- Embedding of `fetch.next_work_day` / `StockDatabase._next_work_day`:
add one day, then skip to Monday when the result is a Saturday
(`strftime("%A") == 'Saturday'`, day % 7 = 6) or a Sunday (day % 7 = 0). -/
def next_work_day (day : Nat) : Nat :=
  let d := day + 1
  if d % 7 = 6 then d + 2
  else if d % 7 = 0 then d + 1
  else d

/-- Floor of a rational, computed on the raw numerator and denominator so
that the kernel can evaluate it on concrete inputs. -/
def ratFloor (x : ℚ) : ℤ := Int.fdiv x.num x.den

/-- Banker's rounding (round half to even), the rounding mode of
numpy/pandas `round`. -/
def roundHalfEven (x : ℚ) : ℤ :=
  let f := ratFloor x
  if x - f < 1/2 then f
  else if 1/2 < x - f then f + 1
  else if f % 2 = 0 then f else f + 1

/-- Rounding to two decimal places, as `df.round(2)` / `.round(2)` do. -/
def round2 (x : ℚ) : ℚ := (roundHalfEven (x * 100) : ℚ) / 100

/-- One stored row of `HistoryTable` (schema in `store.init_schema` and
`StockDatabase.__init__`). -/
structure Row where
  Date : Nat
  Ticker : String
  Open : ℚ
  High : ℚ
  Low : ℚ
  Close : ℚ
  Volume : Int
  Dividends : ℚ
  Splits : ℚ
deriving DecidableEq

/-- Whether the archive already holds a row with key (Ticker, Date); the
`UNIQUE (Ticker, Date) ON CONFLICT IGNORE` constraint consults exactly this. -/
def hasKey (archive : List Row) (t : String) (d : Nat) : Bool :=
  archive.any fun r => r.Ticker == t && r.Date == d

/-- One `INSERT OR IGNORE` of a single row: appended unless its key exists. -/
def insertRow (archive : List Row) (r : Row) : List Row :=
  if hasKey archive r.Ticker r.Date then archive else archive ++ [r]

/-- Embedding of `store.insert` / `StockDatabase.insert`: `executemany` of
`INSERT OR IGNORE` processes the batch rows in order. -/
def insert (archive : List Row) (rows : List Row) : List Row :=
  rows.foldl insertRow archive

/-- The stored row for a key, scanning in storage order. -/
def findKey (l : List Row) (t : String) (d : Nat) : Option Row :=
  l.find? fun r => r.Ticker == t && r.Date == d

/-- No two rows of the list share a (Ticker, Date) key. -/
def uniqueKeys (l : List Row) : Prop :=
  l.Pairwise fun a b => ¬(a.Ticker = b.Ticker ∧ a.Date = b.Date)

/-- Sentinel "never synced" default date 2014-12-31 (`queries.get_max_date`,
`StockDatabase._max_day`). -/
def epochDefault : Nat := rataDie 2014 12 31

/-- Embedding of `queries.get_max_date`: `SELECT max(Date) ... WHERE Ticker=t`,
with the sentinel default when no rows exist. ISO strings compare like their
day numbers. -/
def get_max_date (archive : List Row) (ticker : String) : Nat :=
  match ((archive.filter fun r => r.Ticker == ticker).map Row.Date).max? with
  | none => epochDefault
  | some m => m

/-- One provider bar as returned by the upstream fetch, after the
`Stock Splits` → `Splits` rename, before rounding and ticker tagging. -/
structure Bar where
  Date : Nat
  Open : ℚ
  High : ℚ
  Low : ℚ
  Close : ℚ
  Volume : Int
  Dividends : ℚ
  Splits : ℚ
deriving DecidableEq

/-- Embedding of the per-ticker frame preparation in `refresh_history`:
`df.round(2)` (float columns), `reset_index`, `df['Ticker'] = ticker`,
date stringification. -/
def processFrame (ticker : String) (bars : List Bar) : List Row :=
  bars.map fun b =>
    { Date := b.Date, Ticker := ticker, Open := round2 b.Open, High := round2 b.High,
      Low := round2 b.Low, Close := round2 b.Close, Volume := b.Volume,
      Dividends := round2 b.Dividends, Splits := round2 b.Splits }

/-- One row of the manual-updates CSV; a missing cell reads as NaN (`none`). -/
structure CorrRow where
  Date : Option Nat
  Ticker : Option String
  Open : Option ℚ
  High : Option ℚ
  Low : Option ℚ
  Close : Option ℚ
  Volume : Option Int
  Dividends : Option ℚ
  Splits : Option ℚ
deriving DecidableEq

/-- Overwrite of one frame row by one CSV row: every shared column whose CSV
value is not NaN replaces the frame value — this includes Date and Ticker. -/
def patchRow (r : Row) (c : CorrRow) : Row :=
  { Date := c.Date.getD r.Date, Ticker := c.Ticker.getD r.Ticker,
    Open := c.Open.getD r.Open, High := c.High.getD r.High, Low := c.Low.getD r.Low,
    Close := c.Close.getD r.Close, Volume := c.Volume.getD r.Volume,
    Dividends := c.Dividends.getD r.Dividends, Splits := c.Splits.getD r.Splits }

/-- Embedding of `df.update(fix_errors)`: pandas reindexes `fix_errors` by the
frame's index labels, so the CSV row at position l patches every frame row
whose integer label is l. Alignment is by index label, not by (Date, Ticker). -/
def updateDf (df : List (Nat × Row)) (fix : List CorrRow) : List (Nat × Row) :=
  df.map fun p =>
    match fix[p.1]? with
    | some c => (p.1, patchRow p.2 c)
    | none => p

/-- Embedding of `pd.concat(data)`: each per-ticker frame keeps its own
RangeIndex 0,1,… labels (each frame got fresh labels from `reset_index`). -/
def concatFrames (frames : List (List Row)) : List (Nat × Row) :=
  (frames.map List.enum).flatten

/-- The correction overlay as the spec words it, for comparison with the
source's `updateDf`: a row is patched only when its (Date, Ticker) equals a
correction's key, and only the non-null value fields are replaced. -/
def applyCorrectionsSpec (rows : List Row) (fix : List CorrRow) : List Row :=
  rows.map fun r =>
    match fix.find? (fun c => c.Date == some r.Date && c.Ticker == some r.Ticker) with
    | some c =>
      { r with Open := c.Open.getD r.Open, High := c.High.getD r.High,
               Low := c.Low.getD r.Low, Close := c.Close.getD r.Close,
               Volume := c.Volume.getD r.Volume,
               Dividends := c.Dividends.getD r.Dividends,
               Splits := c.Splits.getD r.Splits }
    | none => r

deriving instance DecidableEq for Except

/-- SQL window filter of the queries: `Date >= date(begin)` (inclusive) and
`Date < date(end)` (exclusive). -/
def inWindow (b e : Option Nat) (d : Nat) : Bool :=
  (match b with | none => true | some x => decide (x ≤ d))
    && (match e with | none => true | some x => decide (d < x))

/-- The WHERE clause of `queries.get_prices` / `StockDatabase.history`: date
window, optional `Dividends > 0` and `Splits != 0` filters, and the ticker
disjunction. -/
def histFilter (tickers : List String) (b e : Option Nat)
    (dividends splits : Bool) (r : Row) : Bool :=
  inWindow b e r.Date && (!dividends || decide (0 < r.Dividends))
    && (!splits || !(r.Splits == 0)) && tickers.contains r.Ticker

/-- Embedding of `queries.get_prices`: rows come back in storage order
(`SELECT` with no `ORDER BY`). With an empty ticker list the assembled WHERE
clause contains the malformed fragment `()` and sqlite raises. -/
def get_prices (archive : List Row) (tickers : List String) (b e : Option Nat)
    (dividends splits : Bool) : Except String (List Row) :=
  if tickers.isEmpty then Except.error "syntax error"
  else Except.ok (archive.filter (histFilter tickers b e dividends splits))

/-- Embedding of `StockDatabase.tickers`: an empty (falsy) request falls back
to the configured default tickers. -/
def tickersOrDefault (defaults tickers : List String) : List String :=
  if tickers.isEmpty then defaults else tickers

/-- Embedding of `StockDatabase.history`: a `None` ticker argument returns
`None`; otherwise the request is resolved against the defaults and the
filtered rows are returned (an empty resolved set builds the malformed `()`
condition and raises). -/
def history (defaults : List String) (archive : List Row)
    (tickers : Option (List String)) (b e : Option Nat)
    (dividends splits : Bool) : Option (Except String (List Row)) :=
  match tickers with
  | none => none
  | some ts =>
    some (get_prices archive (tickersOrDefault defaults ts) b e dividends splits)

/-- One projected row of the splits query (`SELECT Date,Ticker,Splits`). -/
structure SplitRow where
  Date : Nat
  Ticker : String
  Splits : ℚ
deriving DecidableEq

/-- Sort key of `df.sort_values(['Ticker', 'Date'], ascending=[True, False])`:
ticker ascending, then date descending. -/
def splitLe (a b : SplitRow) : Prop :=
  a.Ticker < b.Ticker ∨ (a.Ticker = b.Ticker ∧ b.Date ≤ a.Date)

instance : DecidableRel splitLe := fun a b =>
  decidable_of_iff (a.Ticker.toList < b.Ticker.toList
      ∨ (a.Ticker = b.Ticker ∧ b.Date ≤ a.Date)) (by
    unfold splitLe
    rw [String.lt_iff_toList_lt])

instance : IsTotal SplitRow splitLe where
  total a b := by
    unfold splitLe
    rcases lt_trichotomy a.Ticker b.Ticker with h | h | h
    · exact Or.inl (Or.inl h)
    · rcases le_total b.Date a.Date with hd | hd
      · exact Or.inl (Or.inr ⟨h, hd⟩)
      · exact Or.inr (Or.inr ⟨h.symm, hd⟩)
    · exact Or.inr (Or.inl h)

instance : IsTrans SplitRow splitLe where
  trans a b c hab hbc := by
    unfold splitLe at *
    rcases hab with h1 | ⟨e1, d1⟩
    · rcases hbc with h2 | ⟨e2, d2⟩
      · exact Or.inl (h1.trans h2)
      · exact Or.inl (e2 ▸ h1)
    · rcases hbc with h2 | ⟨e2, d2⟩
      · exact Or.inl (e1 ▸ h2)
      · exact Or.inr ⟨e1.trans e2, d2.trans d1⟩

/-- `groupby("Ticker").Splits.cumprod()` on a frame in the given order:
running product of Splits within each ticker; `acc` carries each ticker's
product over the rows already passed. -/
def cumprodAnnotate (acc : String → ℚ) : List SplitRow → List (SplitRow × ℚ)
  | [] => []
  | r :: rs =>
    (r, acc r.Ticker * r.Splits)
      :: cumprodAnnotate
        (fun t => if t = r.Ticker then acc r.Ticker * r.Splits else acc t) rs

/-- Embedding of `queries.get_splits`: nonzero-split rows of the requested
tickers (storage order), sorted ticker-ascending / date-descending, with the
per-ticker cumulative product column appended. The pandas sort is unstable,
but on a key-unique archive no two selected rows compare equal. -/
def get_splits (archive : List Row) (tickers : List String) :
    Except String (List (SplitRow × ℚ)) :=
  if tickers.isEmpty then Except.error "no ticker specified"
  else
    let rows := (archive.filter fun r =>
      tickers.contains r.Ticker && !(r.Splits == 0)).map
        fun r => SplitRow.mk r.Date r.Ticker r.Splits
    Except.ok (cumprodAnnotate (fun _ => 1) (rows.insertionSort splitLe))

/-- Product of the Splits of the rows of one ticker inside a slice, the
declarative value of the cumulative-product column. -/
def prefProd (l : List SplitRow) (t : String) : ℚ :=
  ((l.filter fun r => r.Ticker == t).map SplitRow.Splits).prod

/-- Lexicographic order on ticker strings (the order pandas sorts group keys
and sqlite orders text by, for ASCII tickers). -/
def strLe (a b : String) : Prop := a < b ∨ a = b

instance : DecidableRel strLe := fun a b =>
  decidable_of_iff (a.toList < b.toList ∨ a = b) (by
    unfold strLe
    rw [String.lt_iff_toList_lt])

instance : IsTotal String strLe where
  total a b := by
    unfold strLe
    rcases lt_trichotomy a b with h | h | h
    · exact Or.inl (Or.inl h)
    · exact Or.inl (Or.inr h)
    · exact Or.inr (Or.inl h)

instance : IsTrans String strLe where
  trans a b c hab hbc := by
    unfold strLe at *
    rcases hab with h1 | h1
    · rcases hbc with h2 | h2
      · exact Or.inl (h1.trans h2)
      · exact Or.inl (h2 ▸ h1)
    · rcases hbc with h2 | h2
      · exact Or.inl (h1 ▸ h2)
      · exact Or.inr (h1.trans h2)

/-- The groupby keys: distinct tickers of a frame, ascending (pandas
`groupby` sorts group keys). -/
def groupKeys (rows : List Row) : List String :=
  ((rows.map Row.Ticker).dedup).insertionSort strLe

/-- One output row of `calculate_div_yield` after the groupby aggregation. -/
structure YieldRow where
  Ticker : String
  Date : Nat
  Close : ℚ
  Dividends : ℚ
  Last : Option ℚ
  Count : Nat
  Yield : ℚ
deriving DecidableEq

/-- The `reset_index().groupby("Ticker").agg` block of `calculate_div_yield`:
per group, in frame order, the last Date and Close, the dividend sum, the
last and count of positive dividend payments; then
`Yield = (Dividends * 100 / Close).round(2)`. -/
def yieldAgg (df : List Row) : List YieldRow :=
  (groupKeys df).filterMap fun t =>
    match (df.filter fun r => r.Ticker == t).getLast? with
    | none => none
    | some lastRow =>
      some { Ticker := t, Date := lastRow.Date, Close := lastRow.Close,
             Dividends := ((df.filter fun r => r.Ticker == t).map Row.Dividends).sum,
             Last := (((df.filter fun r => r.Ticker == t).filter fun r =>
               decide (0 < r.Dividends)).getLast?).map Row.Dividends,
             Count := ((df.filter fun r => r.Ticker == t).filter fun r =>
               decide (0 < r.Dividends)).length,
             Yield := round2 (((df.filter fun r => r.Ticker == t).map
               Row.Dividends).sum * 100 / lastRow.Close) }

/-- Embedding of `calculate_div_yield`, with the trailing window start date
already computed (the source passes `today - relativedelta(months=lookback)`
as the `get_prices` start date); an empty frame short-circuits to itself,
which coincides with the aggregation of an empty frame. -/
def calculate_div_yield (archive : List Row) (tickers : List String)
    (start : Nat) : Except String (List YieldRow) :=
  match get_prices archive tickers (some start) none false false with
  | Except.error e => Except.error e
  | Except.ok df => Except.ok (yieldAgg df)

/-- The rows `calculate_div_yield` aggregates for one ticker: the trailing
window of `get_prices`, restricted to that ticker, in storage order. -/
def yieldGroup (archive : List Row) (tickers : List String) (start : Nat)
    (t : String) : List Row :=
  (archive.filter (histFilter tickers (some start) none false false)).filter
    fun r => r.Ticker == t

/-- One output row of the resampled frame: the bin label, then the Ticker and
Close of the last row of the bin (a NaN row when the bin is empty). -/
structure ResRow where
  period : Nat
  Ticker : Option String
  Close : Option ℚ
deriving DecidableEq

/-- One group's `resample(freq).last()`: the bins run from the period of the
earliest date to the period of the latest date; each bin reports the last
row falling in it, or a NaN row when no row does. -/
def resampleGroup (period : Nat → Nat) (rows : List Row) : List ResRow :=
  match rows.map Row.Date with
  | [] => []
  | d0 :: ds =>
    let lo := period (ds.foldl min d0)
    let hi := period (ds.foldl max d0)
    (List.range' lo (hi + 1 - lo)).map fun p =>
      match (rows.filter fun r => period r.Date == p).getLast? with
      | some r => { period := p, Ticker := some r.Ticker, Close := some r.Close }
      | none => { period := p, Ticker := none, Close := none }

/-- The windowed frame of `resample_prices` (`SELECT *` under the ticker and
date conditions, storage order). -/
def resWindow (archive : List Row) (tickers : List String) (b e : Option Nat) :
    List Row :=
  archive.filter fun r => inWindow b e r.Date && tickers.contains r.Ticker

/-- The rows of one resample group: the windowed frame restricted to one
ticker, in storage order. -/
def resGroup (archive : List Row) (tickers : List String) (b e : Option Nat)
    (t : String) : List Row :=
  (resWindow archive tickers b e).filter fun r => r.Ticker == t

/-- Embedding of `queries.resample_prices`: an empty ticker list raises; the
windowed rows are grouped by ticker and each group is resampled; empty group
frames are skipped and `pd.concat` over an empty generator raises. -/
def resample_prices (archive : List Row) (tickers : List String)
    (period : Nat → Nat) (b e : Option Nat) : Except String (List ResRow) :=
  if tickers.isEmpty then Except.error "no ticker specified"
  else
    let df := resWindow archive tickers b e
    let frames := (groupKeys df).map fun t =>
      resampleGroup period (df.filter fun r => r.Ticker == t)
    let frames2 := frames.filter fun f => !f.isEmpty
    if frames2.isEmpty then Except.error "no objects to concatenate"
    else Except.ok frames2.flatten

/-- One output row of `calculate_performance`. -/
structure PerfRow where
  Ticker : String
  StartDate : Nat
  StartPrice : ℚ
  EndDate : Nat
  EndPrice : ℚ
  Change : ℚ
  ChangePercent : ℚ
deriving DecidableEq

/-- A row attaining the minimal Date (the first such row in scan order), as
sqlite's bare-column `MIN(Date)` grouping returns. -/
def argMinDate : List Row → Option Row
  | [] => none
  | r :: rs =>
    match argMinDate rs with
    | none => some r
    | some m => if m.Date < r.Date then some m else some r

/-- A row attaining the maximal Date (the first such row in scan order), as
sqlite's bare-column `MAX(Date)` grouping returns. -/
def argMaxDate : List Row → Option Row
  | [] => none
  | r :: rs =>
    match argMaxDate rs with
    | none => some r
    | some m => if r.Date < m.Date then some m else some r

/-- The windowed frame of `calculate_performance` (the ticker filter is
optional: an empty list means all tickers). -/
def perfWindow (archive : List Row) (tickers : List String) (b e : Option Nat) :
    List Row :=
  archive.filter fun r =>
    inWindow b e r.Date && (tickers.isEmpty || tickers.contains r.Ticker)

/-- The rows of one performance group. -/
def perfGroup (archive : List Row) (tickers : List String) (b e : Option Nat)
    (t : String) : List Row :=
  (perfWindow archive tickers b e).filter fun r => r.Ticker == t

/-- Embedding of `calculate_performance`: per ticker of the windowed frame,
the rows attaining `MIN(Date)` and `MAX(Date)` give StartPrice/EndPrice; the
join keeps only tickers with `StartDate < EndDate`; Change and ChangePercent
are derived and the price columns rounded to two decimals. -/
def calculate_performance (archive : List Row) (tickers : List String)
    (b e : Option Nat) : List PerfRow :=
  (groupKeys (perfWindow archive tickers b e)).filterMap fun t =>
    match argMinDate (perfGroup archive tickers b e t),
      argMaxDate (perfGroup archive tickers b e t) with
    | some f, some l =>
      if f.Date < l.Date then
        some { Ticker := t, StartDate := f.Date, StartPrice := round2 f.Close,
               EndDate := l.Date, EndPrice := round2 l.Close,
               Change := round2 (l.Close - f.Close),
               ChangePercent := round2 ((l.Close - f.Close) / f.Close * 100) }
      else none
    | _, _ => none

/-- Rows stored in date-ascending order per ticker, as successive sync passes
append them; the frame order of a query then agrees with date order. -/
def chronological (l : List Row) : Prop :=
  l.Pairwise fun a b => a.Ticker = b.Ticker → a.Date < b.Date

instance (l : List Row) : Decidable (chronological l) := by
  unfold chronological
  infer_instance

instance (l : List Row) : Decidable (uniqueKeys l) := by
  unfold uniqueKeys
  infer_instance

/-- Ephemeral sync targets of one pass: the tickers still stale today, each
with its resume date (the `select` list of `refresh_history`). -/
def selectTickers (archive : List Row) (today : Nat) (tickers : List String) :
    List (String × Nat) :=
  tickers.filterMap fun t =>
    let rd := next_work_day (get_max_date archive t)
    if rd ≤ today then some (t, rd) else none

/-- The per-ticker fetch loop of `refresh_history`: a raised exception or an
empty frame contributes nothing; a nonempty frame is rounded, tagged and
collected (`data.append(df)`). -/
def fetchData (fetch : String → Nat → Except Unit (List Bar))
    (sel : List (String × Nat)) : List (List Row) :=
  sel.filterMap fun p =>
    match fetch p.1 p.2 with
    | Except.ok bars => if bars.isEmpty then none else some (processFrame p.1 bars)
    | Except.error _ => none

/-- Embedding of `fetch.refresh_history` / `StockDatabase._refresh_history`
(with `tickers` the already-resolved ticker list): plan the stale tickers,
fetch each with per-ticker exception isolation, concatenate, apply the
manual-updates overlay, project the schema columns, and insert. -/
def refresh_history (archive : List Row) (today : Nat) (tickers : List String)
    (fetch : String → Nat → Except Unit (List Bar)) (fix : List CorrRow) : List Row :=
  let sel := selectTickers archive today tickers
  if sel.isEmpty then archive
  else
    let data := fetchData fetch sel
    if data.isEmpty then archive
    else insert archive ((updateDf (concatFrames data) fix).map Prod.snd)

/-- First-some choice on options (the scan order of `find?` over appended
lists), used to state the batch-insert characterization. -/
def orElseO (x y : Option Row) : Option Row :=
  match x with
  | some v => some v
  | none => y

/-- Concrete row for the C2 witness: key ("ABC", 2024-01-02), Close 10. -/
def c2r1 : Row :=
  { Date := rataDie 2024 1 2, Ticker := "ABC", Open := 1, High := 1, Low := 1,
    Close := 10, Volume := 100, Dividends := 0, Splits := 0 }

/-- Concrete row for the C2 witness: same key as `c2r1`, different Close. -/
def c2r2 : Row := { c2r1 with Close := 20 }

/-- Concrete provider bar used by the sync-pass witnesses. -/
def wBar : Bar :=
  { Date := rataDie 2024 6 6, Open := 1, High := 1, Low := 1, Close := 5,
    Volume := 10, Dividends := 0, Splits := 0 }

/-- Concrete fetch collaborator: succeeds for "GOOD", raises for anything else. -/
def wFetch : String → Nat → Except Unit (List Bar) := fun t _ =>
  if t == "GOOD" then Except.ok [wBar] else Except.error ()

/-- Concrete fetch collaborator that returns no bars for any request. -/
def wFetchEmpty : String → Nat → Except Unit (List Bar) := fun _ _ => Except.ok []

/-- Concrete "today" used by the sync-pass witnesses. -/
def wToday : Nat := rataDie 2024 6 7

/-- Day number of 2024-01-02 (C1 failing input). -/
def c1d1 : Nat := rataDie 2024 1 2

/-- Day number of 2024-01-03 (C1 failing input). -/
def c1d2 : Nat := rataDie 2024 1 3

/-- First fetched bar of the C1 failing input: 2024-01-02, Close 10. -/
def c1bar1 : Bar :=
  { Date := c1d1, Open := 10, High := 10, Low := 10, Close := 10,
    Volume := 100, Dividends := 0, Splits := 0 }

/-- Second fetched bar of the C1 failing input: 2024-01-03, Close 20. -/
def c1bar2 : Bar := { c1bar1 with Date := c1d2, Close := 20 }

/-- C1 fetch collaborator: "ABC" yields the two bars above. -/
def c1fetch : String → Nat → Except Unit (List Bar) := fun t _ =>
  if t == "ABC" then Except.ok [c1bar1, c1bar2] else Except.error ()

/-- C1 manual-updates table: one record keyed (2024-01-03, "ABC") overriding
Close to 99, all other fields blank. -/
def c1fix : List CorrRow :=
  [{ Date := some c1d2, Ticker := some "ABC", Open := none, High := none,
     Low := none, Close := some 99, Volume := none, Dividends := none,
     Splits := none }]

/-- The first fetched row of the C1 input after frame preparation. -/
def c1row1 : Row :=
  { Date := c1d1, Ticker := "ABC", Open := 10, High := 10, Low := 10,
    Close := 10, Volume := 100, Dividends := 0, Splits := 0 }

/-- The second fetched row of the C1 input after frame preparation. -/
def c1row2 : Row := { c1row1 with Date := c1d2, Close := 20 }

/-- What the code stores for the C1 input: the first row with its Date and
Close overwritten by the positionally aligned correction. -/
def c1badRow : Row := { c1row1 with Date := c1d2, Close := 99 }

/-- What the spec's overlay yields for the second row: only Close patched. -/
def c1goodRow2 : Row := { c1row2 with Close := 99 }

/-- Concrete stored row for the C5 counterexample: default ticker "ABC". -/
def c5row : Row :=
  { Date := rataDie 2024 1 2, Ticker := "ABC", Open := 1, High := 1, Low := 1,
    Close := 10, Volume := 100, Dividends := 0, Splits := 0 }

/-- C6 counterexample row: "AAA", 2024-01-15, Close 1. -/
def c6rowJan : Row :=
  { Date := rataDie 2024 1 15, Ticker := "AAA", Open := 1, High := 1, Low := 1,
    Close := 1, Volume := 1, Dividends := 0, Splits := 0 }

/-- C6 counterexample row: "AAA", 2024-03-15, Close 3; February has no row. -/
def c6rowMar : Row := { c6rowJan with Date := rataDie 2024 3 15, Close := 3 }

/-- C6 counterexample archive: observations in January and March only. -/
def c6archive : List Row := [c6rowJan, c6rowMar]

/-- C6 amended-witness row with a small plain day number. -/
def c6wr1 : Row :=
  { Date := 10, Ticker := "BBB", Open := 1, High := 1, Low := 1,
    Close := 1, Volume := 1, Dividends := 0, Splits := 0 }

/-- C6 amended-witness row two bins later (day 70, bin width 31). -/
def c6wr2 : Row := { c6wr1 with Date := 70, Close := 3 }

/-- C7 witness row: "XYZ" splits 3-for-1 on 2022-01-01. -/
def c7r2022 : Row :=
  { Date := rataDie 2022 1 1, Ticker := "XYZ", Open := 1, High := 1, Low := 1,
    Close := 1, Volume := 1, Dividends := 0, Splits := 3 }

/-- C7 witness row: "XYZ" splits 2-for-1 on 2023-01-01. -/
def c7r2023 : Row := { c7r2022 with Date := rataDie 2023 1 1, Splits := 2 }

/-- C7 witness archive, stored chronologically. -/
def c7archive : List Row := [c7r2022, c7r2023]

/-- Projected split row of `c7r2022`. -/
def c7s2022 : SplitRow := { Date := rataDie 2022 1 1, Ticker := "XYZ", Splits := 3 }

/-- Projected split row of `c7r2023`. -/
def c7s2023 : SplitRow := { Date := rataDie 2023 1 1, Ticker := "XYZ", Splits := 2 }

/-- C8 witness row: "PRF" on 2024-01-02, Close 10. -/
def c8p1 : Row :=
  { Date := rataDie 2024 1 2, Ticker := "PRF", Open := 1, High := 1, Low := 1,
    Close := 10, Volume := 1, Dividends := 0, Splits := 0 }

/-- C8 witness row: "PRF" on 2024-03-01, Close 15. -/
def c8p2 : Row := { c8p1 with Date := rataDie 2024 3 1, Close := 15 }

/-- C8 witness row: the only "ONE" row in the window. -/
def c8one : Row := { c8p1 with Ticker := "ONE", Date := rataDie 2024 2 1, Close := 7 }

/-- C8 witness archive. -/
def c8archive : List Row := [c8p1, c8p2, c8one]

/-- C9 witness row: "DIV" pays 4 in dividends on 2024-01-10, Close 50. -/
def c9r1 : Row :=
  { Date := rataDie 2024 1 10, Ticker := "DIV", Open := 1, High := 1, Low := 1,
    Close := 50, Volume := 1, Dividends := 4, Splits := 0 }

/-- C9 witness row: "DIV" latest close 100 on 2024-06-03, no dividend. -/
def c9r2 : Row := { c9r1 with Date := rataDie 2024 6 3, Close := 100, Dividends := 0 }

/-- C9 witness archive: cumulative dividends 4, latest Close 100. -/
def c9archive : List Row := [c9r1, c9r2]

/-- C9 witness trailing-window start (2023-06-07, twelve months back). -/
def c9start : Nat := rataDie 2023 6 7

/-- The aggregation row `calculate_div_yield` yields for the C9 witness. -/
def c9out : YieldRow :=
  { Ticker := "DIV", Date := rataDie 2024 6 3, Close := 100, Dividends := 4,
    Last := some 4, Count := 1, Yield := 4 }

end Tahoo

namespace Tahoo

theorem hasKey_iff {l : List Row} {t : String} {d : Nat} :
    hasKey l t d = true ↔ ∃ r ∈ l, r.Ticker = t ∧ r.Date = d := by
  simp [hasKey]

theorem findKey_eq_none {l : List Row} {t : String} {d : Nat} :
    findKey l t d = none ↔ hasKey l t d = false := by
  simp [findKey, hasKey, List.find?_eq_none]

theorem findKey_isSome {l : List Row} {t : String} {d : Nat} :
    (findKey l t d).isSome ↔ hasKey l t d = true := by
  simp [findKey, hasKey, List.find?_isSome]

theorem findKey_append (a b : List Row) (t : String) (d : Nat) :
    findKey (a ++ b) t d = orElseO (findKey a t d) (findKey b t d) := by
  induction a with
  | nil => rfl
  | cons x xs ih =>
    rw [List.cons_append]
    by_cases hx : (x.Ticker == t && x.Date == d) = true
    · unfold findKey at *
      rw [@List.find?_cons_of_pos _ (fun r => r.Ticker == t && r.Date == d) x (xs ++ b) hx,
        @List.find?_cons_of_pos _ (fun r => r.Ticker == t && r.Date == d) x xs hx]
      rfl
    · unfold findKey at *
      rw [@List.find?_cons_of_neg _ (fun r => r.Ticker == t && r.Date == d) x (xs ++ b) hx,
        @List.find?_cons_of_neg _ (fun r => r.Ticker == t && r.Date == d) x xs hx]
      exact ih

theorem insert_findKey (rows : List Row) : ∀ (a : List Row) (t : String) (d : Nat),
    findKey (insert a rows) t d = orElseO (findKey a t d) (findKey rows t d) := by
  induction rows with
  | nil =>
    intro a t d
    show findKey a t d = orElseO (findKey a t d) none
    cases findKey a t d <;> rfl
  | cons r rs ih =>
    intro a t d
    show findKey (List.foldl insertRow (insertRow a r) rs) t d = _
    rw [show List.foldl insertRow (insertRow a r) rs = insert (insertRow a r) rs from rfl,
      ih]
    by_cases hm : (r.Ticker == t && r.Date == d) = true
    · obtain ⟨hmt, hmd⟩ : r.Ticker = t ∧ r.Date = d := by simpa using hm
      have hcons : findKey (r :: rs) t d = some r := by
        unfold findKey
        rw [@List.find?_cons_of_pos _ (fun r => r.Ticker == t && r.Date == d) r rs hm]
      rw [hcons]
      by_cases hk : hasKey a r.Ticker r.Date = true
      · have hins : insertRow a r = a := by simp [insertRow, hk]
        rw [hins]
        have hsome : (findKey a t d).isSome := by
          rw [findKey_isSome, ← hmt, ← hmd]; exact hk
        obtain ⟨x, hx⟩ := Option.isSome_iff_exists.mp hsome
        rw [hx]; rfl
      · have hkf : hasKey a r.Ticker r.Date = false := by simpa using hk
        have hins : insertRow a r = a ++ [r] := by simp [insertRow, hkf]
        rw [hins, findKey_append]
        have hnone : findKey a t d = none := by
          rw [findKey_eq_none, ← hmt, ← hmd]; exact hkf
        rw [hnone]
        have hone : findKey [r] t d = some r := by
          unfold findKey
          rw [@List.find?_cons_of_pos _ (fun r => r.Ticker == t && r.Date == d) r [] hm]
        rw [hone]; rfl
    · have hcons : findKey (r :: rs) t d = findKey rs t d := by
        unfold findKey
        rw [@List.find?_cons_of_neg _ (fun r => r.Ticker == t && r.Date == d) r rs hm]
      rw [hcons]
      have hstep : findKey (insertRow a r) t d = findKey a t d := by
        unfold insertRow
        by_cases hk : hasKey a r.Ticker r.Date = true
        · rw [if_pos hk]
        · rw [if_neg hk, findKey_append]
          have hone : findKey [r] t d = none := by
            unfold findKey
            rw [@List.find?_cons_of_neg _ (fun r => r.Ticker == t && r.Date == d) r [] hm]
            rfl
          rw [hone]
          cases findKey a t d <;> rfl
      rw [hstep]

theorem insertRow_uniqueKeys {a : List Row} {r : Row} (h : uniqueKeys a) :
    uniqueKeys (insertRow a r) := by
  unfold insertRow
  by_cases hk : hasKey a r.Ticker r.Date = true
  · rw [if_pos hk]; exact h
  · rw [if_neg hk]
    have hkf : hasKey a r.Ticker r.Date = false := by simpa using hk
    unfold uniqueKeys at *
    rw [List.pairwise_append]
    refine ⟨h, List.pairwise_singleton _ _, ?_⟩
    intro x hx y hy hcon
    have hyr : y = r := by simpa using hy
    rw [hyr] at hcon
    have : hasKey a r.Ticker r.Date = true := hasKey_iff.mpr ⟨x, hx, hcon.1, hcon.2⟩
    rw [this] at hkf
    cases hkf

theorem insert_uniqueKeys (rows : List Row) :
    ∀ a : List Row, uniqueKeys a → uniqueKeys (insert a rows) := by
  induction rows with
  | nil => intro a h; exact h
  | cons r rs ih =>
    intro a h
    exact ih (insertRow a r) (insertRow_uniqueKeys h)

theorem insert_exists_append (rows : List Row) :
    ∀ a : List Row, ∃ s, insert a rows = a ++ s := by
  induction rows with
  | nil => intro a; exact ⟨[], by simp [insert]⟩
  | cons r rs ih =>
    intro a
    obtain ⟨s, hs⟩ := ih (insertRow a r)
    by_cases hk : hasKey a r.Ticker r.Date = true
    · refine ⟨s, ?_⟩
      have hins : insertRow a r = a := by simp [insertRow, hk]
      show insert (insertRow a r) rs = a ++ s
      rw [hs, hins]
    · refine ⟨[r] ++ s, ?_⟩
      have hkf : hasKey a r.Ticker r.Date = false := by simpa using hk
      have hins : insertRow a r = a ++ [r] := by simp [insertRow, hkf]
      show insert (insertRow a r) rs = a ++ ([r] ++ s)
      rw [hs, hins, List.append_assoc]

theorem insert_take (a rows : List Row) : (insert a rows).take a.length = a := by
  obtain ⟨s, hs⟩ := insert_exists_append rows a
  rw [hs, List.take_left]

theorem insert_mem (a rows : List Row) {r : Row} (hr : r ∈ a) : r ∈ insert a rows := by
  obtain ⟨s, hs⟩ := insert_exists_append rows a
  rw [hs]
  exact List.mem_append_left _ hr

theorem fetchData_cons (fetch : String → Nat → Except Unit (List Bar))
    (p : String × Nat) (ps : List (String × Nat)) :
    fetchData fetch (p :: ps)
      = match fetch p.1 p.2 with
        | Except.ok bars =>
          if bars.isEmpty then fetchData fetch ps
          else processFrame p.1 bars :: fetchData fetch ps
        | Except.error _ => fetchData fetch ps := by
  unfold fetchData
  rw [List.filterMap_cons]
  cases fetch p.1 p.2 with
  | ok bars =>
    by_cases hb : bars.isEmpty = true
    · simp [hb]
    · simp [hb]
  | error e => rfl

theorem fetchData_eq_nil {fetch : String → Nat → Except Unit (List Bar)}
    (h : ∀ t d, fetch t d = Except.ok []) (sel : List (String × Nat)) :
    fetchData fetch sel = [] := by
  induction sel with
  | nil => rfl
  | cons p ps ih =>
    unfold fetchData at *
    rw [List.filterMap_cons, h p.1 p.2]
    simpa using ih

theorem refresh_history_eq (archive : List Row) (today : Nat) (tickers : List String)
    (fetch : String → Nat → Except Unit (List Bar)) (fix : List CorrRow) :
    refresh_history archive today tickers fetch fix
      = (if (fetchData fetch (selectTickers archive today tickers)).isEmpty then archive
         else insert archive
           ((updateDf (concatFrames (fetchData fetch (selectTickers archive today tickers)))
             fix).map Prod.snd)) := by
  unfold refresh_history
  by_cases hsel : (selectTickers archive today tickers).isEmpty = true
  · have hnil : selectTickers archive today tickers = [] := by
      simpa [List.isEmpty_iff] using hsel
    simp [hsel, hnil, fetchData]
  · simp [hsel]

theorem refresh_history_no_new (archive : List Row) (today : Nat)
    (tickers : List String) (fetch : String → Nat → Except Unit (List Bar))
    (fix : List CorrRow) (h : ∀ t d, fetch t d = Except.ok []) :
    refresh_history archive today tickers fetch fix = archive := by
  rw [refresh_history_eq, fetchData_eq_nil h]
  rfl

theorem fetchData_select_filter (archive : List Row) (today : Nat)
    (fetch : String → Nat → Except Unit (List Bar)) (bad : String)
    (hbad : ∀ d, fetch bad d = Except.error ()) (tickers : List String) :
    fetchData fetch (selectTickers archive today tickers)
      = fetchData fetch (selectTickers archive today (tickers.filter fun t => t != bad)) := by
  induction tickers with
  | nil => rfl
  | cons t ts ih =>
    by_cases ht : t = bad
    · subst ht
      have hfil : ((t :: ts).filter fun x => x != t) = ts.filter fun x => x != t := by
        simp [List.filter_cons]
      rw [hfil]
      by_cases hsel : next_work_day (get_max_date archive t) ≤ today
      · have hsels : selectTickers archive today (t :: ts)
            = (t, next_work_day (get_max_date archive t)) :: selectTickers archive today ts := by
          simp [selectTickers, List.filterMap_cons, hsel]
        rw [hsels, fetchData_cons, hbad _, ih]
      · have hsels : selectTickers archive today (t :: ts) = selectTickers archive today ts := by
          simp [selectTickers, List.filterMap_cons, hsel]
        rw [hsels, ih]
    · have hfil : ((t :: ts).filter fun x => x != bad)
          = t :: (ts.filter fun x => x != bad) := by
        simp [List.filter_cons, ht]
      rw [hfil]
      by_cases hsel : next_work_day (get_max_date archive t) ≤ today
      · have h1 : selectTickers archive today (t :: ts)
            = (t, next_work_day (get_max_date archive t)) :: selectTickers archive today ts := by
          simp [selectTickers, List.filterMap_cons, hsel]
        have h2 : selectTickers archive today (t :: ts.filter fun x => x != bad)
            = (t, next_work_day (get_max_date archive t))
              :: selectTickers archive today (ts.filter fun x => x != bad) := by
          simp [selectTickers, List.filterMap_cons, hsel]
        rw [h1, h2, fetchData_cons, fetchData_cons]
        cases hf : fetch t (next_work_day (get_max_date archive t)) with
        | ok bars =>
          by_cases hb : bars.isEmpty = true
          · simp only [hb, if_true]
            exact ih
          · simp only [hb, if_false]
            rw [ih]
        | error e => exact ih
      · have h1 : selectTickers archive today (t :: ts) = selectTickers archive today ts := by
          simp [selectTickers, List.filterMap_cons, hsel]
        have h2 : selectTickers archive today (t :: ts.filter fun x => x != bad)
            = selectTickers archive today (ts.filter fun x => x != bad) := by
          simp [selectTickers, List.filterMap_cons, hsel]
        rw [h1, h2, ih]

end Tahoo

/-- C10: `next_trading_day` returns date + 1 day, advanced by 2 more days when
that lands on a Saturday and 1 more when it lands on a Sunday, with no holiday
adjustment; the result is never a Saturday or Sunday; in particular
2024-06-07 (a Friday) maps to 2024-06-10 (Monday) and 2024-06-05 (a Wednesday)
maps to 2024-06-06 (Thursday). -/
theorem c10_next_trading_day (n : Nat) :
    (Tahoo.next_work_day n =
      if (n + 1) % 7 = 6 then n + 3 else if (n + 1) % 7 = 0 then n + 2 else n + 1)
    ∧ Tahoo.next_work_day n % 7 ≠ 6 ∧ Tahoo.next_work_day n % 7 ≠ 0
    ∧ Tahoo.rataDie 2024 6 7 % 7 = 5
    ∧ Tahoo.next_work_day (Tahoo.rataDie 2024 6 7) = Tahoo.rataDie 2024 6 10
    ∧ Tahoo.rataDie 2024 6 5 % 7 = 3
    ∧ Tahoo.next_work_day (Tahoo.rataDie 2024 6 5) = Tahoo.rataDie 2024 6 6 := by
  refine ⟨?_, ?_, ?_, by decide, by decide, by decide, by decide⟩
  · simp only [Tahoo.next_work_day]
  · simp only [Tahoo.next_work_day]
    split <;> [skip; split] <;> omega
  · simp only [Tahoo.next_work_day]
    split <;> [skip; split] <;> omega

namespace Tahoo

/-- C1 (code bug): the correction overlay is claimed to patch, by (Date,
Symbol) key, exactly the non-null corrected fields of the matching fetched
row, leaving other rows untouched. The code's `df.update(fix_errors)` instead
aligns the CSV by integer index label: with two fetched "ABC" rows
(2024-01-02, Close 10) and (2024-01-03, Close 20) and one correction keyed
(2024-01-03, "ABC", Close 99), the CSV row patches the positionally first
row, overwriting its Date, so the stored archive is the single row
(2024-01-03, "ABC", Close 99) — the 2024-01-02 row is lost and the
2024-01-03 row keeps Close 20 until deduplication discards it — instead of
the spec's two rows with only the 2024-01-03 Close replaced. -/
theorem c1_correction_overlay_positional :
    refresh_history [] wToday ["ABC"] c1fetch c1fix = [c1badRow]
    ∧ processFrame "ABC" [c1bar1, c1bar2] = [c1row1, c1row2]
    ∧ applyCorrectionsSpec [c1row1, c1row2] c1fix = [c1row1, c1goodRow2]
    ∧ Tahoo.insert [] (applyCorrectionsSpec [c1row1, c1row2] c1fix)
        ≠ refresh_history [] wToday ["ABC"] c1fetch c1fix := by
  refine ⟨?_, ?_, ?_, ?_⟩ <;> decide

/-- C2: batch insertion under `UNIQUE (Ticker, Date) ON CONFLICT IGNORE`
keeps at most one row per key, and the row stored for a key is the archive's
pre-existing row when the key was already present (a duplicate insert is a
silent no-op), otherwise the first batch row carrying that key (first-wins
within a single pass). -/
theorem c2_dedup_invariant (archive rows : List Row) (h : uniqueKeys archive) :
    uniqueKeys (Tahoo.insert archive rows)
    ∧ ∀ t d, findKey (Tahoo.insert archive rows) t d
        = orElseO (findKey archive t d) (findKey rows t d) :=
  ⟨insert_uniqueKeys rows archive h, fun t d => insert_findKey rows archive t d⟩

/-- Witness for C2: inserting two rows with the same key ("ABC", 2024-01-02)
and different Close values stores exactly the first. -/
theorem c2_dedup_invariant_witness :
    uniqueKeys (Tahoo.insert [] [c2r1, c2r2])
    ∧ findKey (Tahoo.insert [] [c2r1, c2r2]) "ABC" (rataDie 2024 1 2) = some c2r1
    ∧ c2r1.Close ≠ c2r2.Close := by
  have h := c2_dedup_invariant [] [c2r1, c2r2] List.Pairwise.nil
  refine ⟨h.1, ?_, by decide⟩
  rw [h.2 "ABC" (rataDie 2024 1 2)]
  decide

/-- C3: a sync pass in which fetching one symbol always raises produces
exactly the archive of the pass with that symbol removed from the request:
the failure is caught per symbol and every other symbol is still fetched,
corrected and committed unchanged. -/
theorem c3_partial_failure (archive : List Row) (today : Nat) (tickers : List String)
    (fetch : String → Nat → Except Unit (List Bar)) (fix : List CorrRow) (bad : String)
    (hbad : ∀ d, fetch bad d = Except.error ()) :
    refresh_history archive today tickers fetch fix
      = refresh_history archive today (tickers.filter fun t => t != bad) fetch fix := by
  rw [refresh_history_eq, refresh_history_eq,
    ← fetchData_select_filter archive today fetch bad hbad tickers]

/-- Witness for C3: with "BAD" raising on every fetch, the pass over
["GOOD", "BAD"] equals the pass over ["GOOD"] alone. -/
theorem c3_partial_failure_witness :
    refresh_history [] wToday ["GOOD", "BAD"] wFetch []
      = refresh_history [] wToday ["GOOD"] wFetch [] := by
  have h := c3_partial_failure [] wToday ["GOOD", "BAD"] wFetch [] "BAD" (fun d => rfl)
  have hf : List.filter (fun t => t != "BAD") ["GOOD", "BAD"] = ["GOOD"] := by decide
  rw [hf] at h
  exact h

/-- C4: a second sync pass whose provider returns no bars leaves the archive
of the first pass unchanged (same rows, same contents), and batch insertion
never changes existing rows: the old archive is a prefix of the new one and
every old row survives. -/
theorem c4_idempotent_sync (archive : List Row) (today : Nat) (tickers : List String)
    (fetch1 fetch2 : String → Nat → Except Unit (List Bar)) (fix : List CorrRow)
    (h2 : ∀ t d, fetch2 t d = Except.ok []) :
    refresh_history (refresh_history archive today tickers fetch1 fix) today tickers
        fetch2 fix
      = refresh_history archive today tickers fetch1 fix
    ∧ ∀ rows : List Row, (Tahoo.insert archive rows).take archive.length = archive
        ∧ ∀ r ∈ archive, r ∈ Tahoo.insert archive rows :=
  ⟨refresh_history_no_new _ _ _ _ _ h2,
   fun rows => ⟨insert_take archive rows, fun _ hr => insert_mem archive rows hr⟩⟩

/-- Witness for C4: an empty-provider second pass after a concrete first pass
is a no-op, and inserting into the empty archive preserves its (empty) prefix. -/
theorem c4_idempotent_sync_witness :
    refresh_history (refresh_history [] wToday ["GOOD"] wFetch []) wToday ["GOOD"]
        wFetchEmpty []
      = refresh_history [] wToday ["GOOD"] wFetch []
    ∧ (Tahoo.insert [] [c2r1]).take (List.length ([] : List Row)) = [] := by
  have h := c4_idempotent_sync [] wToday ["GOOD"] wFetch wFetchEmpty [] (fun t d => rfl)
  exact ⟨h.1, (h.2 [c2r1]).1⟩

/-- C5 counterexample: with default ticker "ABC" and one stored "ABC" row,
`history` called with an empty symbol list resolves to the defaults and
returns that row — a non-empty result — so "returns an empty result" is
false as a statement over every archive. -/
theorem c5_history_empty_request_counterexample :
    history ["ABC"] [c5row] (some []) none none false false
      = some (Except.ok [c5row])
    ∧ some (Except.ok ([] : List Row))
        ≠ history ["ABC"] [c5row] (some []) none none false false := by
  constructor <;> decide

/-- C5 amended: `history` with an empty symbol list resolves it to the
configured default set and returns the default set's matching rows without
raising — provided the default set is nonempty — and an empty result (not an
error) exactly when no stored rows match the window and filters. -/
theorem c5_history_empty_request (defaults : List String) (archive : List Row)
    (b e : Option Nat) (dividends splits : Bool)
    (hd : defaults.isEmpty = false) :
    history defaults archive (some []) b e dividends splits
      = some (Except.ok (archive.filter (histFilter defaults b e dividends splits)))
    ∧ (archive.filter (histFilter defaults b e dividends splits) = [] →
        history defaults archive (some []) b e dividends splits
          = some (Except.ok [])) := by
  have h1 : history defaults archive (some []) b e dividends splits
      = some (get_prices archive defaults b e dividends splits) := rfl
  constructor
  · rw [h1]
    unfold get_prices
    rw [hd]
    simp
  · intro hnil
    rw [h1]
    unfold get_prices
    rw [hd]
    simp [hnil]

/-- Witness for C5 (amended) at concrete inputs: empty archive, default
ticker "ABC", empty request — the result is an empty frame, not an error. -/
theorem c5_history_empty_request_witness :
    (["ABC"] : List String).isEmpty = false
    ∧ history ["ABC"] [] (some []) none none false false = some (Except.ok []) := by
  have h := c5_history_empty_request ["ABC"] [] none none false false (by decide)
  refine ⟨by decide, ?_⟩
  rw [h.1]
  rfl

theorem prefProd_cons (r : SplitRow) (xs : List SplitRow) (t : String) :
    prefProd (r :: xs) t = (if r.Ticker = t then r.Splits else 1) * prefProd xs t := by
  unfold prefProd
  by_cases hrt : r.Ticker = t
  · simp [List.filter_cons, hrt]
  · simp [List.filter_cons, hrt]

theorem cumprodAnnotate_map_fst (l : List SplitRow) :
    ∀ acc, (cumprodAnnotate acc l).map Prod.fst = l := by
  induction l with
  | nil => intro acc; rfl
  | cons r rs ih =>
    intro acc
    unfold cumprodAnnotate
    rw [List.map_cons, ih]

theorem cumprodAnnotate_split (l : List SplitRow) :
    ∀ (acc : String → ℚ) (pre : List (SplitRow × ℚ)) (cur : SplitRow × ℚ)
      (post : List (SplitRow × ℚ)),
      cumprodAnnotate acc l = pre ++ cur :: post →
      cur.2 = acc cur.1.Ticker * prefProd (pre.map Prod.fst ++ [cur.1]) cur.1.Ticker := by
  induction l with
  | nil =>
    intro acc pre cur post h
    simp [cumprodAnnotate] at h
  | cons r rs ih =>
    intro acc pre cur post h
    unfold cumprodAnnotate at h
    cases pre with
    | nil =>
      rw [List.nil_append] at h
      injection h with h1 h2
      rw [← h1]
      simp [prefProd, List.filter_cons]
    | cons q pre2 =>
      rw [List.cons_append] at h
      injection h with h1 h2
      have hih := ih _ pre2 cur post h2
      rw [hih, ← h1, List.map_cons, List.cons_append, prefProd_cons]
      by_cases hct : cur.1.Ticker = r.Ticker
      · simp only [hct, eq_self_iff_true, if_true]
        rw [mul_assoc]
      · have hrc : ¬(r.Ticker = cur.1.Ticker) := fun hh => hct hh.symm
        simp [hct, hrc]

/-- C7: the splits query returns exactly the stored nonzero-Splits rows of
the requested tickers, sorted ticker-ascending then date-descending, and the
appended column of each row is the product of the Splits of that ticker's
rows from the most recent split down to that row. -/
theorem c7_splits_cumprod (archive : List Row) (tickers : List String)
    (out : List (SplitRow × ℚ)) (hu : uniqueKeys archive)
    (ht : tickers.isEmpty = false)
    (hout : get_splits archive tickers = Except.ok out) :
    ((out.map Prod.fst).Perm
      ((archive.filter fun r => tickers.contains r.Ticker && !(r.Splits == 0)).map
        fun r => SplitRow.mk r.Date r.Ticker r.Splits))
    ∧ (out.map Prod.fst).Pairwise splitLe
    ∧ ∀ pre cur post, out = pre ++ cur :: post →
        cur.2 = prefProd (pre.map Prod.fst ++ [cur.1]) cur.1.Ticker := by
  unfold get_splits at hout
  rw [ht] at hout
  simp only [Bool.false_eq_true, if_false, Except.ok.injEq] at hout
  refine ⟨?_, ?_, ?_⟩
  · rw [← hout, cumprodAnnotate_map_fst]
    exact List.perm_insertionSort _ _
  · rw [← hout, cumprodAnnotate_map_fst]
    exact List.sorted_insertionSort _ _
  · intro pre cur post hsplit
    rw [← hout] at hsplit
    have := cumprodAnnotate_split _ _ pre cur post hsplit
    rw [this, one_mul]

/-- Witness for C7: "XYZ" splits 2 on 2023-01-01 and 3 on 2022-01-01; the
query lists them date-descending with cumulative products [2, 6]. -/
theorem c7_splits_cumprod_witness :
    get_splits c7archive ["XYZ"] = Except.ok [(c7s2023, 2), (c7s2022, 6)]
    ∧ ([(c7s2023, 2), (c7s2022, 6)].map Prod.fst).Pairwise splitLe := by
  have h := c7_splits_cumprod c7archive ["XYZ"] [(c7s2023, 2), (c7s2022, 6)]
    (by decide) (by decide) (by decide)
  exact ⟨by decide, h.2.1⟩

theorem argMinDate_spec : ∀ (rows : List Row) (r : Row), argMinDate rows = some r →
    r ∈ rows ∧ ∀ x ∈ rows, r.Date ≤ x.Date := by
  intro rows
  induction rows with
  | nil => intro r h; simp [argMinDate] at h
  | cons a rs ih =>
    intro r h
    unfold argMinDate at h
    cases hm : argMinDate rs with
    | none =>
      rw [hm] at h
      replace h : some a = some r := h
      injection h with h1
      subst h1
      refine ⟨List.mem_cons_self _ _, fun x hx => ?_⟩
      rcases List.mem_cons.mp hx with h2 | h2
      · rw [h2]
      · cases rs with
        | nil => simp at h2
        | cons b bs =>
          unfold argMinDate at hm
          cases hb : argMinDate bs with
          | none =>
            rw [hb] at hm
            replace hm : some b = none := hm
            simp at hm
          | some m =>
            rw [hb] at hm
            replace hm : (if m.Date < b.Date then some m else some b) = none := hm
            by_cases hbd : m.Date < b.Date
            · rw [if_pos hbd] at hm; simp at hm
            · rw [if_neg hbd] at hm; simp at hm
    | some m =>
      rw [hm] at h
      replace h : (if m.Date < a.Date then some m else some a) = some r := h
      obtain ⟨hmem, hmin⟩ := ih m hm
      by_cases hd : m.Date < a.Date
      · rw [if_pos hd] at h
        injection h with h1
        subst h1
        refine ⟨List.mem_cons_of_mem _ hmem, fun x hx => ?_⟩
        rcases List.mem_cons.mp hx with h2 | h2
        · rw [h2]; exact Nat.le_of_lt hd
        · exact hmin x h2
      · rw [if_neg hd] at h
        injection h with h1
        subst h1
        refine ⟨List.mem_cons_self _ _, fun x hx => ?_⟩
        rcases List.mem_cons.mp hx with h2 | h2
        · rw [h2]
        · exact Nat.le_trans (Nat.le_of_not_lt hd) (hmin x h2)

theorem argMaxDate_spec : ∀ (rows : List Row) (r : Row), argMaxDate rows = some r →
    r ∈ rows ∧ ∀ x ∈ rows, x.Date ≤ r.Date := by
  intro rows
  induction rows with
  | nil => intro r h; simp [argMaxDate] at h
  | cons a rs ih =>
    intro r h
    unfold argMaxDate at h
    cases hm : argMaxDate rs with
    | none =>
      rw [hm] at h
      replace h : some a = some r := h
      injection h with h1
      subst h1
      refine ⟨List.mem_cons_self _ _, fun x hx => ?_⟩
      rcases List.mem_cons.mp hx with h2 | h2
      · rw [h2]
      · cases rs with
        | nil => simp at h2
        | cons b bs =>
          unfold argMaxDate at hm
          cases hb : argMaxDate bs with
          | none =>
            rw [hb] at hm
            replace hm : some b = none := hm
            simp at hm
          | some m =>
            rw [hb] at hm
            replace hm : (if b.Date < m.Date then some m else some b) = none := hm
            by_cases hbd : b.Date < m.Date
            · rw [if_pos hbd] at hm; simp at hm
            · rw [if_neg hbd] at hm; simp at hm
    | some m =>
      rw [hm] at h
      replace h : (if a.Date < m.Date then some m else some a) = some r := h
      obtain ⟨hmem, hmax⟩ := ih m hm
      by_cases hd : a.Date < m.Date
      · rw [if_pos hd] at h
        injection h with h1
        subst h1
        refine ⟨List.mem_cons_of_mem _ hmem, fun x hx => ?_⟩
        rcases List.mem_cons.mp hx with h2 | h2
        · rw [h2]; exact Nat.le_of_lt hd
        · exact hmax x h2
      · rw [if_neg hd] at h
        injection h with h1
        subst h1
        refine ⟨List.mem_cons_self _ _, fun x hx => ?_⟩
        rcases List.mem_cons.mp hx with h2 | h2
        · rw [h2]
        · exact Nat.le_trans (hmax x h2) (Nat.le_of_not_lt hd)

/-- C8: every row the performance query emits belongs to a symbol whose
earliest in-window date is strictly before its latest one, reports exactly
those two dates with the Close values on them (rounded), and derives
`Change = EndPrice - StartPrice` and `ChangePercent = 100 * Change /
StartPrice`, both rounded to two decimals; a symbol with exactly one stored
row in the window never appears. -/
theorem c8_performance (archive : List Row) (tickers : List String)
    (b e : Option Nat) (hu : uniqueKeys archive) :
    (∀ p ∈ calculate_performance archive tickers b e,
      ∃ f l, f ∈ perfGroup archive tickers b e p.Ticker
        ∧ l ∈ perfGroup archive tickers b e p.Ticker
        ∧ (∀ x ∈ perfGroup archive tickers b e p.Ticker,
            f.Date ≤ x.Date ∧ x.Date ≤ l.Date)
        ∧ f.Date < l.Date
        ∧ p.StartDate = f.Date ∧ p.EndDate = l.Date
        ∧ p.StartPrice = round2 f.Close ∧ p.EndPrice = round2 l.Close
        ∧ p.Change = round2 (l.Close - f.Close)
        ∧ p.ChangePercent = round2 (100 * (l.Close - f.Close) / f.Close))
    ∧ ∀ t, (perfGroup archive tickers b e t).length = 1 →
        ∀ p ∈ calculate_performance archive tickers b e, p.Ticker ≠ t := by
  constructor
  · intro p hp
    unfold calculate_performance at hp
    obtain ⟨t, htk, hFt⟩ := List.mem_filterMap.mp hp
    rcases hmin : argMinDate (perfGroup archive tickers b e t) with _ | f
    · rw [hmin] at hFt
      replace hFt : none = some p := hFt
      simp at hFt
    · rcases hmax : argMaxDate (perfGroup archive tickers b e t) with _ | l
      · rw [hmin, hmax] at hFt
        replace hFt : none = some p := hFt
        simp at hFt
      · rw [hmin, hmax] at hFt
        replace hFt : (if f.Date < l.Date then
            some ({ Ticker := t, StartDate := f.Date, StartPrice := round2 f.Close,
                    EndDate := l.Date, EndPrice := round2 l.Close,
                    Change := round2 (l.Close - f.Close),
                    ChangePercent := round2 ((l.Close - f.Close) / f.Close * 100) } :
              PerfRow)
          else none) = some p := hFt
        by_cases hlt : f.Date < l.Date
        · rw [if_pos hlt] at hFt
          injection hFt with hFt
          subst hFt
          obtain ⟨hfmem, hfmin⟩ := argMinDate_spec _ f hmin
          obtain ⟨hlmem, hlmax⟩ := argMaxDate_spec _ l hmax
          refine ⟨f, l, hfmem, hlmem, fun x hx => ⟨hfmin x hx, hlmax x hx⟩, hlt,
            rfl, rfl, rfl, rfl, rfl, ?_⟩
          show round2 ((l.Close - f.Close) / f.Close * 100)
            = round2 (100 * (l.Close - f.Close) / f.Close)
          congr 1
          ring
        · rw [if_neg hlt] at hFt; simp at hFt
  · intro t hlen p hp hpt
    unfold calculate_performance at hp
    obtain ⟨t2, ht2, hFt⟩ := List.mem_filterMap.mp hp
    rcases hmin : argMinDate (perfGroup archive tickers b e t2) with _ | f
    · rw [hmin] at hFt
      replace hFt : none = some p := hFt
      simp at hFt
    · rcases hmax : argMaxDate (perfGroup archive tickers b e t2) with _ | l
      · rw [hmin, hmax] at hFt
        replace hFt : none = some p := hFt
        simp at hFt
      · rw [hmin, hmax] at hFt
        replace hFt : (if f.Date < l.Date then
            some ({ Ticker := t2, StartDate := f.Date, StartPrice := round2 f.Close,
                    EndDate := l.Date, EndPrice := round2 l.Close,
                    Change := round2 (l.Close - f.Close),
                    ChangePercent := round2 ((l.Close - f.Close) / f.Close * 100) } :
              PerfRow)
          else none) = some p := hFt
        by_cases hlt : f.Date < l.Date
        · rw [if_pos hlt] at hFt
          injection hFt with hFt
          have ht2p : t2 = p.Ticker := by rw [← hFt]
          rw [ht2p, hpt] at hmin hmax
          obtain ⟨x, hx⟩ := List.length_eq_one.mp hlen
          rw [hx] at hmin hmax
          have hfx : f = x := by
            have : argMinDate [x] = some x := rfl
            rw [this] at hmin
            injection hmin with h2
            exact h2.symm
          have hlx : l = x := by
            have : argMaxDate [x] = some x := rfl
            rw [this] at hmax
            injection hmax with h2
            exact h2.symm
          rw [hfx, hlx] at hlt
          exact absurd hlt (lt_irrefl _)
        · rw [if_neg hlt] at hFt; simp at hFt

/-- Witness for C8: in an archive where "ONE" has a single row in the window,
the performance result contains no "ONE" entry. -/
theorem c8_performance_witness :
    (perfGroup c8archive [] none none "ONE").length = 1
    ∧ ∀ p ∈ calculate_performance c8archive [] none none, p.Ticker ≠ "ONE" := by
  have h := c8_performance c8archive [] none none (by decide)
  exact ⟨by decide, h.2 "ONE" (by decide)⟩

theorem mem_groupKeys {rows : List Row} {t : String} :
    t ∈ groupKeys rows ↔ ∃ r ∈ rows, r.Ticker = t := by
  unfold groupKeys
  rw [List.Perm.mem_iff (List.perm_insertionSort strLe _)]
  simp

theorem getLast_max_date (t : String) : ∀ (g : List Row),
    g.Pairwise (fun a b => a.Ticker = b.Ticker → a.Date < b.Date) →
    (∀ x ∈ g, x.Ticker = t) →
    ∀ m, g.getLast? = some m → m ∈ g ∧ ∀ x ∈ g, x.Date ≤ m.Date := by
  intro g
  induction g with
  | nil => intro _ _ m h; simp at h
  | cons a rs ih =>
    intro hp hall m h
    cases rs with
    | nil =>
      rw [List.getLast?_singleton] at h
      injection h with h1
      refine ⟨by rw [h1]; exact List.mem_cons_self _ _, fun x hx => ?_⟩
      rcases List.mem_cons.mp hx with h2 | h2
      · rw [h2, ← h1]
      · simp at h2
    | cons b bs =>
      rw [List.getLast?_cons_cons] at h
      obtain ⟨hmem, hmax⟩ :=
        ih hp.of_cons (fun x hx => hall x (List.mem_cons_of_mem _ hx)) m h
      refine ⟨List.mem_cons_of_mem _ hmem, fun x hx => ?_⟩
      rcases List.mem_cons.mp hx with h2 | h2
      · rw [h2]
        have hta : a.Ticker = t := hall a (List.mem_cons_self _ _)
        have htm2 : m.Ticker = t := hall m (List.mem_cons_of_mem _ hmem)
        exact Nat.le_of_lt
          ((List.pairwise_cons.mp hp).1 m hmem (hta.trans htm2.symm))
      · exact hmax x h2

theorem yieldGroup_sublist (archive : List Row) (tickers : List String)
    (start : Nat) (t : String) :
    (yieldGroup archive tickers start t).Sublist archive :=
  (List.filter_sublist _).trans (List.filter_sublist _)

theorem yieldGroup_ticker (archive : List Row) (tickers : List String)
    (start : Nat) (t : String) :
    ∀ x ∈ yieldGroup archive tickers start t, x.Ticker = t := by
  intro x hx
  have h := (List.mem_filter.mp hx).2
  simpa using h

/-- C9: every row the trailing dividend-yield query emits belongs to a symbol
with at least one row in the window, carries that symbol's most recent Date
and Close, the sum of its Dividends over the window, and
`Yield = 100 * sum(Dividends) / latest Close` rounded to two decimals; a
symbol with zero rows in the window gets no output row, and every symbol with
at least one row gets one. The archive is assumed date-ascending per ticker
(the order sync passes append), so frame order agrees with date order. -/
theorem c9_div_yield (archive : List Row) (tickers : List String) (start : Nat)
    (hchron : chronological archive) (out : List YieldRow)
    (hout : calculate_div_yield archive tickers start = Except.ok out) :
    (∀ yr ∈ out,
      yieldGroup archive tickers start yr.Ticker ≠ []
      ∧ ∃ m ∈ yieldGroup archive tickers start yr.Ticker,
          (∀ x ∈ yieldGroup archive tickers start yr.Ticker, x.Date ≤ m.Date)
          ∧ yr.Date = m.Date ∧ yr.Close = m.Close
          ∧ yr.Dividends
              = ((yieldGroup archive tickers start yr.Ticker).map Row.Dividends).sum
          ∧ yr.Yield = round2 (100 * ((yieldGroup archive tickers start
              yr.Ticker).map Row.Dividends).sum / m.Close))
    ∧ (∀ t, yieldGroup archive tickers start t = [] → ∀ yr ∈ out, yr.Ticker ≠ t)
    ∧ (∀ t, yieldGroup archive tickers start t ≠ [] → ∃ yr ∈ out, yr.Ticker = t) := by
  unfold calculate_div_yield get_prices at hout
  by_cases hts : tickers.isEmpty = true
  · rw [if_pos hts] at hout
    replace hout : (Except.error "syntax error" : Except String (List YieldRow))
        = Except.ok out := hout
    simp at hout
  · rw [if_neg hts] at hout
    replace hout : Except.ok (yieldAgg (archive.filter
        (histFilter tickers (some start) none false false))) = Except.ok out := hout
    injection hout with hout
    have hdecomp : ∀ yr ∈ out, ∃ t lastRow,
        yr.Ticker = t
        ∧ (yieldGroup archive tickers start t).getLast? = some lastRow
        ∧ yr.Date = lastRow.Date ∧ yr.Close = lastRow.Close
        ∧ yr.Dividends = ((yieldGroup archive tickers start t).map Row.Dividends).sum
        ∧ yr.Yield = round2 (((yieldGroup archive tickers start t).map
            Row.Dividends).sum * 100 / lastRow.Close) := by
      intro yr hyr
      rw [← hout] at hyr
      unfold yieldAgg at hyr
      obtain ⟨t, htk, hFt⟩ := List.mem_filterMap.mp hyr
      replace hFt : (match (yieldGroup archive tickers start t).getLast? with
          | none => none
          | some lastRow =>
            some ({ Ticker := t, Date := lastRow.Date, Close := lastRow.Close,
                    Dividends := ((yieldGroup archive tickers start t).map
                      Row.Dividends).sum,
                    Last := (((yieldGroup archive tickers start t).filter fun r =>
                      decide (0 < r.Dividends)).getLast?).map Row.Dividends,
                    Count := ((yieldGroup archive tickers start t).filter fun r =>
                      decide (0 < r.Dividends)).length,
                    Yield := round2 (((yieldGroup archive tickers start t).map
                      Row.Dividends).sum * 100 / lastRow.Close) } : YieldRow))
          = some yr := hFt
      cases hlast : (yieldGroup archive tickers start t).getLast? with
      | none =>
        rw [hlast] at hFt
        replace hFt : none = some yr := hFt
        simp at hFt
      | some lastRow =>
        rw [hlast] at hFt
        replace hFt : some ({ Ticker := t, Date := lastRow.Date,
                              Close := lastRow.Close,
                              Dividends := ((yieldGroup archive tickers start t).map
                                Row.Dividends).sum,
                              Last := (((yieldGroup archive tickers start
                                t).filter fun r =>
                                decide (0 < r.Dividends)).getLast?).map
                                Row.Dividends,
                              Count := ((yieldGroup archive tickers start
                                t).filter fun r =>
                                decide (0 < r.Dividends)).length,
                              Yield := round2 (((yieldGroup archive tickers
                                start t).map
                                Row.Dividends).sum * 100 / lastRow.Close) } :
            YieldRow)
          = some yr := hFt
        injection hFt with hFt
        subst hFt
        exact ⟨t, lastRow, rfl, hlast, rfl, rfl, rfl, rfl⟩
    refine ⟨?_, ?_, ?_⟩
    · intro yr hyr
      obtain ⟨t, lastRow, hTick, hlast, hDate, hClose, hDiv, hYield⟩ := hdecomp yr hyr
      subst hTick
      have hne : yieldGroup archive tickers start yr.Ticker ≠ [] := by
        intro hnil
        rw [hnil] at hlast
        simp at hlast
      obtain ⟨hmem, hmax⟩ := getLast_max_date yr.Ticker _
        (hchron.sublist (yieldGroup_sublist archive tickers start yr.Ticker))
        (yieldGroup_ticker archive tickers start yr.Ticker) lastRow hlast
      refine ⟨hne, lastRow, hmem, hmax, hDate, hClose, hDiv, ?_⟩
      rw [hYield]
      congr 1
      ring
    · intro t hnil yr hyr hcontra
      obtain ⟨t2, lastRow, hTick, hlast, _⟩ := hdecomp yr hyr
      rw [hcontra] at hTick
      rw [← hTick] at hlast
      rw [hnil] at hlast
      simp at hlast
    · intro t hne
      obtain ⟨r, hr⟩ := List.exists_mem_of_ne_nil _ hne
      have hrdf := List.mem_filter.mp hr
      have htk : t ∈ groupKeys (archive.filter
          (histFilter tickers (some start) none false false)) :=
        mem_groupKeys.mpr ⟨r, hrdf.1, by simpa using hrdf.2⟩
      obtain ⟨lastRow, hlast⟩ : ∃ m,
          (yieldGroup archive tickers start t).getLast? = some m := by
        cases hgl : (yieldGroup archive tickers start t).getLast? with
        | none => exact absurd (List.getLast?_eq_none_iff.mp hgl) hne
        | some m => exact ⟨m, rfl⟩
      refine ⟨({ Ticker := t, Date := lastRow.Date, Close := lastRow.Close,
                 Dividends := ((yieldGroup archive tickers start t).map
                                 Row.Dividends).sum,
                 Last := (((yieldGroup archive tickers start t).filter fun r =>
                             decide (0 < r.Dividends)).getLast?).map Row.Dividends,
                 Count := ((yieldGroup archive tickers start t).filter fun r =>
                             decide (0 < r.Dividends)).length,
                 Yield := round2 (((yieldGroup archive tickers start t).map
                             Row.Dividends).sum * 100 / lastRow.Close) } :
        YieldRow), ?_, rfl⟩
      rw [← hout]
      unfold yieldAgg
      apply List.mem_filterMap.mpr
      refine ⟨t, htk, ?_⟩
      show (match (yieldGroup archive tickers start t).getLast? with
          | none => none
          | some lastRow =>
            some ({ Ticker := t, Date := lastRow.Date, Close := lastRow.Close,
                    Dividends := ((yieldGroup archive tickers start t).map
                      Row.Dividends).sum,
                    Last := (((yieldGroup archive tickers start t).filter
                      fun (r : Row) =>
                      decide (0 < r.Dividends)).getLast?).map Row.Dividends,
                    Count := ((yieldGroup archive tickers start t).filter
                      fun (r : Row) =>
                      decide (0 < r.Dividends)).length,
                    Yield := round2 (((yieldGroup archive tickers start t).map
                      Row.Dividends).sum * 100 / lastRow.Close) } : YieldRow))
          = _
      rw [hlast]

/-- Witness for C9: "DIV" with Close 100 on the latest window date and
cumulative Dividends 4 yields exactly one output row with Yield 4.00, and its
window group is nonempty. -/
theorem c9_div_yield_witness :
    calculate_div_yield c9archive ["DIV"] c9start = Except.ok [c9out]
    ∧ c9out.Yield = 4
    ∧ ∀ yr ∈ [c9out], yieldGroup c9archive ["DIV"] c9start yr.Ticker ≠ [] := by
  have h := c9_div_yield c9archive ["DIV"] c9start (by decide) [c9out] (by decide)
  exact ⟨by decide, by decide, fun yr hyr => (h.1 yr hyr).1⟩

/-- C6 counterexample: resampling "AAA" monthly when it has observations only
in 2024-01 (month index 24289) and 2024-03 (24291) emits a 2024-02 row
(24290) with null Ticker and Close; the observation-free period is kept as a
NaN row, not dropped as the claim states. -/
theorem c6_resample_counterexample :
    resample_prices c6archive ["AAA"] monthIndex none none
      = Except.ok [{ period := 24289, Ticker := some "AAA", Close := some 1 },
          { period := 24290, Ticker := none, Close := none },
          { period := 24291, Ticker := some "AAA", Close := some 3 }]
    ∧ (∀ r ∈ resGroup c6archive ["AAA"] none none "AAA", monthIndex r.Date ≠ 24290)
    ∧ Except.ok [({ period := 24289, Ticker := some "AAA", Close := some 1 } : ResRow),
          { period := 24291, Ticker := some "AAA", Close := some 3 }]
        ≠ resample_prices c6archive ["AAA"] monthIndex none none := by
  refine ⟨by decide, by decide, by decide⟩

theorem foldl_min_le (ds : List Nat) : ∀ d0 : Nat,
    ds.foldl min d0 ≤ d0 ∧ ∀ x ∈ ds, ds.foldl min d0 ≤ x := by
  induction ds with
  | nil => intro d0; simp
  | cons a as ih =>
    intro d0
    rw [List.foldl_cons]
    obtain ⟨h1, h2⟩ := ih (min d0 a)
    refine ⟨h1.trans (min_le_left _ _), fun x hx => ?_⟩
    rcases List.mem_cons.mp hx with h3 | h3
    · rw [h3]; exact h1.trans (min_le_right _ _)
    · exact h2 x h3

theorem foldl_max_ge (ds : List Nat) : ∀ d0 : Nat,
    d0 ≤ ds.foldl max d0 ∧ ∀ x ∈ ds, x ≤ ds.foldl max d0 := by
  induction ds with
  | nil => intro d0; simp
  | cons a as ih =>
    intro d0
    rw [List.foldl_cons]
    obtain ⟨h1, h2⟩ := ih (max d0 a)
    refine ⟨(le_max_left _ _).trans h1, fun x hx => ?_⟩
    rcases List.mem_cons.mp hx with h3 | h3
    · rw [h3]; exact (le_max_right _ _).trans h1
    · exact h2 x h3

theorem resampleGroup_eq (period : Nat → Nat) (g : List Row) (d0 : Nat)
    (ds : List Nat) (hmap : g.map Row.Date = d0 :: ds) :
    resampleGroup period g
      = (List.range' (period (ds.foldl min d0))
          (period (ds.foldl max d0) + 1 - period (ds.foldl min d0))).map
          fun p => match (g.filter fun r => period r.Date == p).getLast? with
            | some r => { period := p, Ticker := some r.Ticker, Close := some r.Close }
            | none => { period := p, Ticker := none, Close := none } := by
  unfold resampleGroup
  rw [hmap]

theorem resampleGroup_bin (period : Nat → Nat) (g : List Row) (d0 : Nat)
    (ds : List Nat) (hmap : g.map Row.Date = d0 :: ds) (p : Nat)
    (hlo : period (ds.foldl min d0) ≤ p) (hhi : p ≤ period (ds.foldl max d0)) :
    (match (g.filter fun r => period r.Date == p).getLast? with
      | some r => ({ period := p, Ticker := some r.Ticker,
                     Close := some r.Close } : ResRow)
      | none => { period := p, Ticker := none, Close := none })
      ∈ resampleGroup period g := by
  rw [resampleGroup_eq period g d0 ds hmap]
  refine List.mem_map.mpr ⟨p, ?_, rfl⟩
  rw [List.mem_range'_1]
  omega

theorem date_bounds (g : List Row) (d0 : Nat) (ds : List Nat)
    (hmap : g.map Row.Date = d0 :: ds) :
    ∀ r ∈ g, ds.foldl min d0 ≤ r.Date ∧ r.Date ≤ ds.foldl max d0 := by
  intro r hr
  have hmem : r.Date ∈ d0 :: ds := by
    rw [← hmap]
    exact List.mem_map_of_mem _ hr
  rcases List.mem_cons.mp hmem with h | h
  · exact ⟨h ▸ (foldl_min_le ds d0).1, h ▸ (foldl_max_ge ds d0).1⟩
  · exact ⟨(foldl_min_le ds d0).2 _ h, (foldl_max_ge ds d0).2 _ h⟩

theorem resGroup_ticker (archive : List Row) (tickers : List String)
    (b e : Option Nat) (t : String) :
    ∀ x ∈ resGroup archive tickers b e t, x.Ticker = t := by
  intro x hx
  have h := (List.mem_filter.mp hx).2
  simpa using h

theorem resGroup_sublist (archive : List Row) (tickers : List String)
    (b e : Option Nat) (t : String) :
    (resGroup archive tickers b e t).Sublist archive :=
  (List.filter_sublist _).trans (List.filter_sublist _)

/-- C6 amended: per requested symbol present in the window, `resample`
produces, for every period holding at least one of the symbol's
observations, a row with the last (most recent) observation's Close; but a
period strictly inside the symbol's observed span with no observations is
emitted as a row with null Ticker and Close — not dropped and not
zero-filled. The bin labelling `period` is assumed monotone (calendar
frequencies are), and the archive date-ascending per ticker. -/
theorem c6_resample_amended (archive : List Row) (tickers : List String)
    (period : Nat → Nat) (b e : Option Nat)
    (hmono : ∀ x y : Nat, x ≤ y → period x ≤ period y)
    (hchron : chronological archive) (out : List ResRow)
    (hout : resample_prices archive tickers period b e = Except.ok out) :
    ∀ t ∈ groupKeys (resWindow archive tickers b e),
      (∀ p, (∃ r ∈ resGroup archive tickers b e t, period r.Date = p) →
        ∃ m ∈ resGroup archive tickers b e t, period m.Date = p
          ∧ (∀ x ∈ resGroup archive tickers b e t, period x.Date = p →
              x.Date ≤ m.Date)
          ∧ ({ period := p, Ticker := some t, Close := some m.Close } : ResRow) ∈ out)
      ∧ (∀ p, (∀ r ∈ resGroup archive tickers b e t, period r.Date ≠ p) →
          (∃ r1 ∈ resGroup archive tickers b e t, period r1.Date ≤ p) →
          (∃ r2 ∈ resGroup archive tickers b e t, p ≤ period r2.Date) →
          ({ period := p, Ticker := none, Close := none } : ResRow) ∈ out) := by
  unfold resample_prices at hout
  by_cases hts : tickers.isEmpty = true
  · rw [if_pos hts] at hout
    replace hout : (Except.error "no ticker specified" : Except String (List ResRow))
        = Except.ok out := hout
    simp at hout
  · rw [if_neg hts] at hout
    set F2 := ((groupKeys (resWindow archive tickers b e)).map fun t =>
      resampleGroup period (resGroup archive tickers b e t)).filter
        fun f => !f.isEmpty with hF2
    replace hout : (if F2.isEmpty then
        (Except.error "no objects to concatenate" : Except String (List ResRow))
      else Except.ok F2.flatten) = Except.ok out := hout
    by_cases hf2 : F2.isEmpty = true
    · rw [if_pos hf2] at hout
      replace hout : (Except.error "no objects to concatenate" :
          Except String (List ResRow)) = Except.ok out := hout
      simp at hout
    · rw [if_neg hf2] at hout
      replace hout : Except.ok F2.flatten = Except.ok out := hout
      injection hout with hout
      intro t htk
      have hsub : ∀ x ∈ resampleGroup period (resGroup archive tickers b e t),
          x ∈ out := by
        intro x hx
        rw [← hout]
        refine List.mem_flatten.mpr
          ⟨resampleGroup period (resGroup archive tickers b e t), ?_, hx⟩
        refine List.mem_filter.mpr ⟨List.mem_map_of_mem _ htk, ?_⟩
        have hne : resampleGroup period (resGroup archive tickers b e t) ≠ [] :=
          List.ne_nil_of_mem hx
        simpa [List.isEmpty_iff] using hne
      constructor
      · rintro p ⟨r, hr, hrp⟩
        obtain ⟨d0, ds, hmap⟩ : ∃ d0 ds,
            (resGroup archive tickers b e t).map Row.Date = d0 :: ds := by
          cases hg : resGroup archive tickers b e t with
          | nil => rw [hg] at hr; simp at hr
          | cons y ys => exact ⟨y.Date, ys.map Row.Date, by simp [hg]⟩
        have hb := date_bounds _ d0 ds hmap r hr
        have hlo : period (ds.foldl min d0) ≤ p := hrp ▸ hmono _ _ hb.1
        have hhi : p ≤ period (ds.foldl max d0) := hrp ▸ hmono _ _ hb.2
        have hbin := resampleGroup_bin period _ d0 ds hmap p hlo hhi
        have hrbin : r ∈ (resGroup archive tickers b e t).filter
            fun r => period r.Date == p :=
          List.mem_filter.mpr ⟨hr, by simp [hrp]⟩
        cases hgl : ((resGroup archive tickers b e t).filter
            fun r => period r.Date == p).getLast? with
        | none =>
          rw [List.getLast?_eq_none_iff] at hgl
          rw [hgl] at hrbin
          simp at hrbin
        | some m =>
          rw [hgl] at hbin
          replace hbin :
            ({ period := p, Ticker := some m.Ticker, Close := some m.Close } : ResRow)
              ∈ resampleGroup period (resGroup archive tickers b e t) := hbin
          have hpair : ((resGroup archive tickers b e t).filter
              fun r => period r.Date == p).Pairwise
                fun a b2 => a.Ticker = b2.Ticker → a.Date < b2.Date :=
            hchron.sublist ((List.filter_sublist _).trans
              (resGroup_sublist archive tickers b e t))
          have hball : ∀ x ∈ (resGroup archive tickers b e t).filter
              fun r => period r.Date == p, x.Ticker = t := fun x hx =>
            resGroup_ticker archive tickers b e t x (List.mem_filter.mp hx).1
          obtain ⟨hmmem, hmmax⟩ := getLast_max_date t _ hpair hball m hgl
          have hmgrp : m ∈ resGroup archive tickers b e t :=
            (List.mem_filter.mp hmmem).1
          have hmper : period m.Date = p := by
            have h2 := (List.mem_filter.mp hmmem).2
            simpa using h2
          have hmtick : m.Ticker = t := resGroup_ticker archive tickers b e t m hmgrp
          refine ⟨m, hmgrp, hmper, fun x hx hxp =>
            hmmax x (List.mem_filter.mpr ⟨hx, by simp [hxp]⟩), ?_⟩
          rw [← hmtick]
          exact hsub _ hbin
      · rintro p hempty ⟨r1, hr1, hp1⟩ ⟨r2, hr2, hp2⟩
        obtain ⟨d0, ds, hmap⟩ : ∃ d0 ds,
            (resGroup archive tickers b e t).map Row.Date = d0 :: ds := by
          cases hg : resGroup archive tickers b e t with
          | nil => rw [hg] at hr1; simp at hr1
          | cons y ys => exact ⟨y.Date, ys.map Row.Date, by simp [hg]⟩
        have hb1 := date_bounds _ d0 ds hmap r1 hr1
        have hb2 := date_bounds _ d0 ds hmap r2 hr2
        have hlo : period (ds.foldl min d0) ≤ p := (hmono _ _ hb1.1).trans hp1
        have hhi : p ≤ period (ds.foldl max d0) := hp2.trans (hmono _ _ hb2.2)
        have hbin := resampleGroup_bin period _ d0 ds hmap p hlo hhi
        have hbinempty : (resGroup archive tickers b e t).filter
            (fun r => period r.Date == p) = [] := by
          rw [List.filter_eq_nil_iff]
          intro a ha
          simp [hempty a ha]
        rw [hbinempty] at hbin
        replace hbin : ({ period := p, Ticker := none, Close := none } : ResRow)
          ∈ resampleGroup period (resGroup archive tickers b e t) := hbin
        exact hsub _ hbin

/-- Witness for C6 (amended): with bins of width 31 days and observations on
days 10 and 70 only, bin 1 is inside the span, has no observations, and is
emitted as a null row. -/
theorem c6_resample_amended_witness :
    resample_prices [c6wr1, c6wr2] ["BBB"] (fun n => n / 31) none none
      = Except.ok [{ period := 0, Ticker := some "BBB", Close := some 1 },
          { period := 1, Ticker := none, Close := none },
          { period := 2, Ticker := some "BBB", Close := some 3 }]
    ∧ ({ period := 1, Ticker := none, Close := none } : ResRow)
        ∈ [({ period := 0, Ticker := some "BBB", Close := some 1 } : ResRow),
          { period := 1, Ticker := none, Close := none },
          { period := 2, Ticker := some "BBB", Close := some 3 }] := by
  have h := c6_resample_amended [c6wr1, c6wr2] ["BBB"] (fun n => n / 31) none none
    (fun x y hxy => Nat.div_le_div_right hxy) (by decide)
    [{ period := 0, Ticker := some "BBB", Close := some 1 },
      { period := 1, Ticker := none, Close := none },
      { period := 2, Ticker := some "BBB", Close := some 3 }] (by decide)
  exact ⟨by decide, (h "BBB" (by decide)).2 1 (by decide) (by decide) (by decide)⟩

end Tahoo

end RatKernelCompute
